import Mathlib

/-!
Verification of the ROUGE scoring module
(`torchmetrics/functional/text/rouge.py`).

Modelling conventions:
* torch scalar tensors hold plain numbers; they are modelled as exact
  rationals (`ℚ`).  The mean of an *empty* tensor is NaN in torch and is
  modelled as `none : Option ℚ`.
* Python exceptions (`ModuleNotFoundError`, `ValueError`, torch runtime
  errors, `IndexError`) are modelled with `Except String`.
* The external collaborator `nltk` is modelled by a flag `nltkAvailable`
  (is the package importable) together with a sentence tokenizer
  `sentTokenize : String → List String` (nltk.sent_tokenize) and a stemmer
  `String → String` (nltk.stem.porter.PorterStemmer().stem), both passed
  as explicit parameters.
-/

/-- A normalized token; Python represents tokens as strings. -/
abbrev Token := String

/-- Membership in the character class `[a-z0-9]` used by the normalizer's
regular expressions. -/
def isAlnumLower (c : Char) : Bool :=
  decide ('a' ≤ c ∧ c ≤ 'z') || decide ('0' ≤ c ∧ c ≤ '9')

/-- Splits a character list into its maximal runs of `[a-z0-9]` characters,
dropping everything else.  This is the composite effect of
`re.sub(r"[^a-z0-9]+", " ", ...)` followed by `re.split(r"\s+", ...)` and the
drop of empty tokens: each maximal alphanumeric run becomes one token.
`acc` holds the (reversed) run currently being read. -/
def splitRunsAux : List Char → List Char → List (List Char)
  | acc, [] => if acc = [] then [] else [acc.reverse]
  | acc, c :: cs =>
    if isAlnumLower c then splitRunsAux (c :: acc) cs
    else if acc = [] then splitRunsAux [] cs else acc.reverse :: splitRunsAux [] cs

/-- Maximal `[a-z0-9]` runs of a character list, in order. -/
def splitRuns (l : List Char) : List (List Char) := splitRunsAux [] l

/-- Embeds `_normalize_and_tokenize_text`: lowercase, replace non-alphanumeric
runs by separators, split, optionally stem tokens longer than 3 characters,
and finally drop any token that is empty or not matching `^[a-z0-9]+$`. -/
def _normalize_and_tokenize_text (text : String) (stemmer : Option (Token → Token)) : List Token :=
  let tokens : List Token := (splitRuns (text.toList.map Char.toLower)).map (fun cs => String.mk cs)
  let tokens : List Token := match stemmer with
    | some st => tokens.map (fun x => if 3 < x.length then st x else x)
    | none => tokens
  tokens.filter (fun x => (x != "") && x.toList.all isAlnumLower)

/-- Embeds `_add_newline_to_end_of_each_sentence`.  Raises when `nltk` is not
importable; otherwise splits into sentences and joins them with newlines.
(The source's `re.sub("<n>", "", x)` discards its result, so it has no
effect on the returned string, and `nltk.download` only fetches data.) -/
def _add_newline_to_end_of_each_sentence (nltkAvailable : Bool)
    (sentTokenize : String → List String) (x : String) : Except String String :=
  if nltkAvailable then Except.ok (String.intercalate "\n" (sentTokenize x))
  else Except.error "ROUGE-Lsum calculation requires that nltk is installed. Use pip install nltk."

/-- The score triple returned for one metric: the Python dicts
`dict(precision=..., recall=..., fmeasure=...)`. -/
structure Score where
  precision : ℚ
  «recall» : ℚ
  fmeasure : ℚ
deriving DecidableEq, Repr

/-- Embeds `_compute_metrics`: precision/recall/F1 from a raw overlap count
and the two lengths.  The Python guard is `precision == recall == 0.0`,
i.e. `precision == recall and recall == 0.0`. -/
def _compute_metrics (hits_or_lcs pred_len target_len : ℕ) : Score :=
  let precision : ℚ := (hits_or_lcs : ℚ) / (pred_len : ℚ)
  let «recall» : ℚ := (hits_or_lcs : ℚ) / (target_len : ℚ)
  if precision = «recall» ∧ «recall» = 0 then
    { precision := 0, «recall» := 0, fmeasure := 0 }
  else
    { precision := precision, «recall» := «recall»,
      fmeasure := 2 * precision * «recall» / (precision + «recall») }

/-- Embeds `_create_ngrams` inside `_rouge_n_score`: the list of all
contiguous `n`-windows (Python's `Counter` multiset is represented by the
list of windows itself; `sum(...values())` is its length and lookups are
`List.count`).  Python's `range(len(tokens) - n + 1)` is empty when
`len(tokens) < n`, hence the guard. -/
def _create_ngrams (tokens : List Token) (n : ℕ) : List (List Token) :=
  if n ≤ tokens.length then
    (List.range (tokens.length - n + 1)).map (fun i => (tokens.drop i).take n)
  else []

/-- Embeds `_rouge_n_score`: ROUGE-N precision/recall/F1 for one reference. -/
def _rouge_n_score (pred target : List Token) (n_gram : ℕ) : Score :=
  let pred_ngrams := _create_ngrams pred n_gram
  let target_ngrams := _create_ngrams target n_gram
  let pred_len := pred_ngrams.length
  let target_len := target_ngrams.length
  if pred_len = 0 ∨ target_len = 0 then
    { precision := 0, «recall» := 0, fmeasure := 0 }
  else
    let hits := (pred_ngrams.dedup.map
      (fun w => min (pred_ngrams.count w) (target_ngrams.count w))).sum
    _compute_metrics hits (max pred_len 1) (max target_len 1)

/-- One row-update step of the `_lcs` dynamic program: given the previous
row (`prevs`, aligned so that its head is the diagonal entry) and the value
just computed to the left, produce the entries `1..P` of the new row for
target token `t`. -/
def rowStep (t : Token) : List Token → List ℕ → ℕ → List ℕ
  | [], _, _ => []
  | p :: ps, prevs, left =>
    let diag := prevs.headD 0
    let up := prevs.tail.headD 0
    let v := if t = p then diag + 1 else max up left
    v :: rowStep t ps prevs.tail v

/-- Embeds `_lcs`: the `(T+1)×(P+1)` dynamic-programming table computed row
by row; the answer is the last entry of the last row (`LCS[-1][-1]`). -/
def _lcs (pred_tokens target_tokens : List Token) : ℕ :=
  let row0 : List ℕ := List.replicate (pred_tokens.length + 1) 0
  (target_tokens.foldl (fun prev t => 0 :: rowStep t pred_tokens prev 0) row0).getLastD 0

/-- Embeds `_rouge_l_score`: ROUGE-L precision/recall/F1 for one reference. -/
def _rouge_l_score (pred target : List Token) : Score :=
  let pred_len := pred.length
  let target_len := target.length
  if pred_len = 0 ∨ target_len = 0 then
    { precision := 0, «recall» := 0, fmeasure := 0 }
  else
    _compute_metrics (_lcs pred target) pred_len target_len

/-- The value attached to an allowed rouge key: the Python union
`Union[int, str]` with values `1..9`, `"L"`, `"Lsum"`. -/
inductive RougeKeyVal where
  | ngram (n : ℕ)
  | L
  | Lsum
deriving DecidableEq, Repr

/-- Embeds the module constant `ALLOWED_ROUGE_KEYS`. -/
def ALLOWED_ROUGE_KEYS : List (String × RougeKeyVal) :=
  [("rouge1", RougeKeyVal.ngram 1), ("rouge2", RougeKeyVal.ngram 2),
   ("rouge3", RougeKeyVal.ngram 3), ("rouge4", RougeKeyVal.ngram 4),
   ("rouge5", RougeKeyVal.ngram 5), ("rouge6", RougeKeyVal.ngram 6),
   ("rouge7", RougeKeyVal.ngram 7), ("rouge8", RougeKeyVal.ngram 8),
   ("rouge9", RougeKeyVal.ngram 9), ("rougeL", RougeKeyVal.L),
   ("rougeLsum", RougeKeyVal.Lsum)]

/-- The `accumulate` argument: the `Literal["avg", "best"]` type. -/
inductive Accumulate where
  | avg
  | best
deriving DecidableEq, Repr

/-- The default value used by `list_results.getD` below; Python indexes
`list_results[highest_idx]` with an always-in-range index, so the default is
never consulted. -/
def zeroScoreFun : RougeKeyVal → Score :=
  fun _ => { precision := 0, «recall» := 0, fmeasure := 0 }

/-- The index of the first maximal element of a list of scalars: the value of
`int(torch.argmax(torch.tensor(l)).item())` (torch.argmax returns the index
of the first occurrence of the maximum). -/
def argmaxFirst : List ℚ → ℕ
  | [] => 0
  | [_] => 0
  | x :: y :: t =>
    if x < (y :: t).getD (argmaxFirst (y :: t)) 0 then argmaxFirst (y :: t) + 1 else 0

/-- The inner reference loop of `_rouge_score_update`: for each raw reference
build the per-key score dict (`result_inner` / the elements appended to
`list_results`).  The dict over requested keys is modelled as a total
function on `RougeKeyVal`, consulted only at requested keys.  The
`target_Lsum` tokenization runs only when `"Lsum"` is among the requested
key values, exactly as in the source. -/
def refScores (nltkAvailable : Bool) (sentTokenize : String → List String)
    (stemmer : Option (Token → Token)) (rouge_keys_values : List RougeKeyVal)
    (pred pred_Lsum : List Token) : List String → Except String (List (RougeKeyVal → Score))
  | [] => Except.ok []
  | target_raw_inner :: rest =>
    let tgt := _normalize_and_tokenize_text target_raw_inner stemmer
    match (if RougeKeyVal.Lsum ∈ rouge_keys_values then
        Except.map (fun s => _normalize_and_tokenize_text s stemmer)
          (_add_newline_to_end_of_each_sentence nltkAvailable sentTokenize target_raw_inner)
      else Except.ok []) with
    | Except.error e => Except.error e
    | Except.ok target_Lsum =>
      match refScores nltkAvailable sentTokenize stemmer rouge_keys_values pred pred_Lsum rest with
      | Except.error e => Except.error e
      | Except.ok restScores =>
        Except.ok ((fun rouge_key =>
          match rouge_key with
          | RougeKeyVal.ngram n => _rouge_n_score pred tgt n
          | RougeKeyVal.L => _rouge_l_score pred tgt
          | RougeKeyVal.Lsum => _rouge_l_score pred_Lsum target_Lsum) :: restScores)

/-- The arithmetic mean of each field over a list of score dicts: the `avg`
branch's `torch.tensor(_dict_metric_score_batch[_type]).mean()` per field
(always applied to one score per reference, a non-empty list). -/
def meanScore (l : List Score) : Score :=
  { precision := (l.map Score.precision).sum / (l.length : ℚ),
    «recall» := (l.map (fun s => s.«recall»)).sum / (l.length : ℚ),
    fmeasure := (l.map Score.fmeasure).sum / (l.length : ℚ) }

/-- The body of `_rouge_score_update`'s outer loop for one
`(pred_raw, target_raw)` pair: per-reference scoring followed by the
selected accumulation.  The per-example contribution to `results` is one
score per key (`best` and non-degenerate `avg`); for `avg` with an empty
reference list the source appends an empty dict, which contributes no
values downstream and is modelled as the empty list.  For `best`,
`rouge_keys_values[0]` raises IndexError on an empty key list, and
`torch.argmax` raises on an empty tensor. -/
def exampleResult (nltkAvailable : Bool) (sentTokenize : String → List String)
    (stemmer : Option (Token → Token)) (rouge_keys_values : List RougeKeyVal)
    (accumulate : Accumulate) (pred_raw : String) (target_raw : List String) :
    Except String (RougeKeyVal → List Score) :=
  let pred := _normalize_and_tokenize_text pred_raw stemmer
  match _add_newline_to_end_of_each_sentence nltkAvailable sentTokenize pred_raw with
  | Except.error e => Except.error e
  | Except.ok pred_joined =>
    let pred_Lsum := _normalize_and_tokenize_text pred_joined stemmer
    match refScores nltkAvailable sentTokenize stemmer rouge_keys_values pred pred_Lsum target_raw with
    | Except.error e => Except.error e
    | Except.ok list_results =>
      match accumulate with
      | Accumulate.best =>
        match rouge_keys_values with
        | [] => Except.error "list index out of range"
        | key_curr :: _ =>
          let all_fmeasure := list_results.map (fun v => (v key_curr).fmeasure)
          match list_results with
          | [] => Except.error "argmax(): Expected reduction dim to be specified for input.numel() == 0."
          | _ :: _ =>
            let highest_idx := argmaxFirst all_fmeasure
            Except.ok (fun rouge_key => [list_results.getD highest_idx zeroScoreFun rouge_key])
      | Accumulate.avg =>
        match list_results with
        | [] => Except.ok (fun _ => [])
        | _ :: _ =>
          Except.ok (fun rouge_key => [meanScore (list_results.map (fun v => v rouge_key))])

/-- The outer loop of `_rouge_score_update` over the zipped
`(pred_raw, target_raw)` pairs, concatenating each example's per-key
contribution onto `results`. -/
def updateLoop (nltkAvailable : Bool) (sentTokenize : String → List String)
    (stemmer : Option (Token → Token)) (rouge_keys_values : List RougeKeyVal)
    (accumulate : Accumulate) :
    List (String × List String) → Except String (RougeKeyVal → List Score)
  | [] => Except.ok (fun _ => [])
  | (pred_raw, target_raw) :: rest =>
    match exampleResult nltkAvailable sentTokenize stemmer rouge_keys_values accumulate
        pred_raw target_raw with
    | Except.error e => Except.error e
    | Except.ok ex =>
      match updateLoop nltkAvailable sentTokenize stemmer rouge_keys_values accumulate rest with
      | Except.error e => Except.error e
      | Except.ok others => Except.ok (fun rouge_key => ex rouge_key ++ others rouge_key)

/-- Embeds `_rouge_score_update`: iterates over `zip(preds, target)` (which
silently truncates to the shorter of the two sequences). -/
def _rouge_score_update (nltkAvailable : Bool) (sentTokenize : String → List String)
    (stemmer : Option (Token → Token)) (preds : List String)
    (target : List (List String)) (rouge_keys_values : List RougeKeyVal)
    (accumulate : Accumulate) : Except String (RougeKeyVal → List Score) :=
  updateLoop nltkAvailable sentTokenize stemmer rouge_keys_values accumulate
    (preds.zip target)

/-- The scalar `torch.tensor(scores).mean()`: the arithmetic mean, or NaN
(modelled as `none`) for an empty list of scores. -/
def meanTensor (scores : List ℚ) : Option ℚ :=
  if scores.length = 0 then none else some (scores.sum / (scores.length : ℚ))

/-- Embeds `_rouge_score_compute`: the mean of every entry of the
accumulated output dict.  (The source's early return for an empty dict
coincides with mapping over the empty list.) -/
def _rouge_score_compute (sentence_results : List (String × List ℚ)) :
    List (String × Option ℚ) :=
  sentence_results.map (fun p => (p.1, meanTensor p.2))

/-- The string form of a rouge key value used in output keys
(`f"rouge{rouge_key}_{type}"`). -/
def keyName : RougeKeyVal → String
  | RougeKeyVal.ngram n => toString n
  | RougeKeyVal.L => "L"
  | RougeKeyVal.Lsum => "Lsum"

/-- The output-assembly loops of `rouge_score`: for each requested key value,
the `fmeasure`, `precision` and `recall` lists of per-example values, in the
insertion order of the source's `output` dict.  (With duplicate requested
keys the Python dict would collapse repeated entries; requested key lists
are duplicate-free in all claims.) -/
def buildOutput (rouge_keys_values : List RougeKeyVal)
    (sentence_results : RougeKeyVal → List Score) : List (String × List ℚ) :=
  rouge_keys_values.flatMap (fun rouge_key =>
    [("rouge" ++ keyName rouge_key ++ "_fmeasure",
        (sentence_results rouge_key).map Score.fmeasure),
     ("rouge" ++ keyName rouge_key ++ "_precision",
        (sentence_results rouge_key).map Score.precision),
     ("rouge" ++ keyName rouge_key ++ "_recall",
        (sentence_results rouge_key).map (fun s => s.«recall»))])

/-- The `preds` argument: a single string or a sequence of strings. -/
inductive PredsInput where
  | str (s : String)
  | list (l : List String)

/-- The `target` argument: a single string, a sequence of strings, or a
sequence of sequences of strings. -/
inductive TargetInput where
  | str (s : String)
  | strList (l : List String)
  | nested (l : List (List String))

/-- The `rouge_keys` argument: a single string or a tuple of strings. -/
inductive RougeKeysInput where
  | str (s : String)
  | tuple (l : List String)

/-- The shape-normalization block at the start of `rouge_score`: a target
list of strings becomes the reference group of a single string prediction,
or one singleton reference group per prediction otherwise; a single string
prediction or target is wrapped. -/
def normalizeShapes (preds : PredsInput) (target : TargetInput) :
    List String × List (List String) :=
  let target' : List (List String) :=
    match target, preds with
    | TargetInput.strList l, PredsInput.str _ => [l]
    | TargetInput.strList l, PredsInput.list _ => l.map (fun tgt => [tgt])
    | TargetInput.str s, _ => [[s]]
    | TargetInput.nested n, _ => n
  let preds' : List String :=
    match preds with
    | PredsInput.str s => [s]
    | PredsInput.list l => l
  (preds', target')

/-- The `ValueError` message for an unknown rouge key (the source interpolates
the offending key and the allowed list). -/
def unknownKeyMsg (key : String) : String :=
  "Got unknown rouge key " ++ key ++
    ". Expected to be one of [rouge1, rouge2, rouge3, rouge4, rouge5, rouge6, rouge7, rouge8, rouge9, rougeL, rougeLsum]"

/-- The key-validation loop of `rouge_score` followed by the translation to
key values: raises on the first key not in `ALLOWED_ROUGE_KEYS`. -/
def validateKeys : List String → Except String (List RougeKeyVal)
  | [] => Except.ok []
  | key :: rest =>
    match ALLOWED_ROUGE_KEYS.lookup key with
    | none => Except.error (unknownKeyMsg key)
    | some v =>
      match validateKeys rest with
      | Except.error e => Except.error e
      | Except.ok vs => Except.ok (v :: vs)

/-- Embeds the entry point `rouge_score`.  The nltk collaborator is passed
explicitly (`nltkAvailable`, `sentTokenize`, `porterStem`); the stemmer
object is built only when `use_stemmer` is set, after the import check. -/
def rouge_score (nltkAvailable : Bool) (sentTokenize : String → List String)
    (porterStem : Token → Token) (preds : PredsInput) (target : TargetInput)
    (accumulate : Accumulate) (use_stemmer : Bool) (rouge_keys : RougeKeysInput) :
    Except String (List (String × Option ℚ)) :=
  if use_stemmer && !nltkAvailable then
    Except.error "Stemmer requires that nltk is installed. Use pip install nltk."
  else
    let stemmer : Option (Token → Token) := if use_stemmer then some porterStem else none
    let keysList : List String :=
      match rouge_keys with
      | RougeKeysInput.str s => [s]
      | RougeKeysInput.tuple l => l
    match validateKeys keysList with
    | Except.error e => Except.error e
    | Except.ok rouge_keys_values =>
      let shapes := normalizeShapes preds target
      match _rouge_score_update nltkAvailable sentTokenize stemmer shapes.1 shapes.2
          rouge_keys_values accumulate with
      | Except.error e => Except.error e
      | Except.ok sentence_results =>
        Except.ok (_rouge_score_compute (buildOutput rouge_keys_values sentence_results))

/-- Modelled from the spec: the external sentence-splitter collaborator
(`nltk.sent_tokenize`), instantiated for single-sentence inputs, on which it
returns just the one sentence. -/
def singleSentenceSplit (s : String) : List String := [s]

/-- One reference's per-key score dict (the value `refScores` conses for one
raw reference), as a standalone function: used to state the accumulation
claims. -/
def refScoreFun (sentTokenize : String → List String)
    (stemmer : Option (Token → Token)) (rouge_keys_values : List RougeKeyVal)
    (pred pred_Lsum : List Token) (target_raw_inner : String) : RougeKeyVal → Score :=
  let tgt := _normalize_and_tokenize_text target_raw_inner stemmer
  let target_Lsum := if RougeKeyVal.Lsum ∈ rouge_keys_values then
      _normalize_and_tokenize_text
        (String.intercalate "\n" (sentTokenize target_raw_inner)) stemmer
    else []
  fun rouge_key =>
    match rouge_key with
    | RougeKeyVal.ngram n => _rouge_n_score pred tgt n
    | RougeKeyVal.L => _rouge_l_score pred tgt
    | RougeKeyVal.Lsum => _rouge_l_score pred_Lsum target_Lsum

/-- The `list_results` value of one example when nltk is available: one
per-key score dict per reference, in reference order. -/
def refList (sentTokenize : String → List String)
    (stemmer : Option (Token → Token)) (rouge_keys_values : List RougeKeyVal)
    (pred_raw : String) (target_raw : List String) : List (RougeKeyVal → Score) :=
  target_raw.map (refScoreFun sentTokenize stemmer rouge_keys_values
    (_normalize_and_tokenize_text pred_raw stemmer)
    (_normalize_and_tokenize_text
      (String.intercalate "\n" (sentTokenize pred_raw)) stemmer))

theorem compute_metrics_congr {a b c d e f : ℕ} (h1 : a = d) (h2 : b = e) (h3 : c = f) :
    _compute_metrics a b c = _compute_metrics d e f := by
  rw [h1, h2, h3]

theorem harmonic_le_max {p r : ℚ} (hp : 0 < p) (hr : 0 < r) :
    2 * p * r / (p + r) ≤ max p r := by
  rcases le_total p r with h | h
  · have hpr : 0 < p + r := by linarith
    calc 2 * p * r / (p + r) ≤ r := by rw [div_le_iff₀ hpr]; nlinarith
      _ ≤ max p r := le_max_right p r
  · have hpr : 0 < p + r := by linarith
    calc 2 * p * r / (p + r) ≤ p := by rw [div_le_iff₀ hpr]; nlinarith
      _ ≤ max p r := le_max_left p r

/-- C4: for every `(count, pred_len, target_len)` with positive lengths,
metric derivation returns `precision = count/pred_len`,
`recall = count/target_len`; `fmeasure` is `0` when both are zero and the
harmonic mean otherwise, and always lies in `[0, max(precision, recall)]`. -/
theorem rouge_compute_metrics_spec (count pred_len target_len : ℕ)
    (hp : 1 ≤ pred_len) (ht : 1 ≤ target_len) :
    (_compute_metrics count pred_len target_len).precision = (count : ℚ) / (pred_len : ℚ) ∧
    (_compute_metrics count pred_len target_len).«recall» = (count : ℚ) / (target_len : ℚ) ∧
    (((count : ℚ) / (pred_len : ℚ) = 0 ∧ (count : ℚ) / (target_len : ℚ) = 0) →
      (_compute_metrics count pred_len target_len).fmeasure = 0) ∧
    (¬((count : ℚ) / (pred_len : ℚ) = 0 ∧ (count : ℚ) / (target_len : ℚ) = 0) →
      (_compute_metrics count pred_len target_len).fmeasure =
        2 * ((count : ℚ) / (pred_len : ℚ)) * ((count : ℚ) / (target_len : ℚ)) /
          ((count : ℚ) / (pred_len : ℚ) + (count : ℚ) / (target_len : ℚ))) ∧
    0 ≤ (_compute_metrics count pred_len target_len).fmeasure ∧
    (_compute_metrics count pred_len target_len).fmeasure ≤
      max ((count : ℚ) / (pred_len : ℚ)) ((count : ℚ) / (target_len : ℚ)) := by
  have hp0 : (0 : ℚ) < (pred_len : ℚ) := by exact_mod_cast hp
  have ht0 : (0 : ℚ) < (target_len : ℚ) := by exact_mod_cast ht
  by_cases hc : count = 0
  · subst hc
    simp only [_compute_metrics, Nat.cast_zero, zero_div, and_self, if_pos rfl]
    norm_num
  · have hcount : (0 : ℚ) < (count : ℚ) := by
      exact_mod_cast Nat.pos_of_ne_zero hc
    have hprec : 0 < (count : ℚ) / (pred_len : ℚ) := div_pos hcount hp0
    have hrec : 0 < (count : ℚ) / (target_len : ℚ) := div_pos hcount ht0
    have hcond : ¬((count : ℚ) / (pred_len : ℚ) = (count : ℚ) / (target_len : ℚ) ∧
        (count : ℚ) / (target_len : ℚ) = 0) := by
      rintro ⟨-, h2⟩
      exact absurd h2 (ne_of_gt hrec)
    simp only [_compute_metrics, if_neg hcond]
    refine ⟨trivial, trivial, ?_, fun _ => trivial, ?_, ?_⟩
    · rintro ⟨h1, -⟩
      exact absurd h1 (ne_of_gt hprec)
    · positivity
    · exact harmonic_le_max hprec hrec

/-- Witness for C4 at `(count, pred_len, target_len) = (3, 4, 4)`. -/
theorem rouge_compute_metrics_spec_witness :
    (_compute_metrics 3 4 4).precision = ((3 : ℕ) : ℚ) / ((4 : ℕ) : ℚ) ∧
    (_compute_metrics 3 4 4).«recall» = ((3 : ℕ) : ℚ) / ((4 : ℕ) : ℚ) ∧
    ((((3 : ℕ) : ℚ) / ((4 : ℕ) : ℚ) = 0 ∧ ((3 : ℕ) : ℚ) / ((4 : ℕ) : ℚ) = 0) →
      (_compute_metrics 3 4 4).fmeasure = 0) ∧
    (¬(((3 : ℕ) : ℚ) / ((4 : ℕ) : ℚ) = 0 ∧ ((3 : ℕ) : ℚ) / ((4 : ℕ) : ℚ) = 0) →
      (_compute_metrics 3 4 4).fmeasure =
        2 * (((3 : ℕ) : ℚ) / ((4 : ℕ) : ℚ)) * (((3 : ℕ) : ℚ) / ((4 : ℕ) : ℚ)) /
          (((3 : ℕ) : ℚ) / ((4 : ℕ) : ℚ) + ((3 : ℕ) : ℚ) / ((4 : ℕ) : ℚ))) ∧
    0 ≤ (_compute_metrics 3 4 4).fmeasure ∧
    (_compute_metrics 3 4 4).fmeasure ≤
      max (((3 : ℕ) : ℚ) / ((4 : ℕ) : ℚ)) (((3 : ℕ) : ℚ) / ((4 : ℕ) : ℚ)) :=
  rouge_compute_metrics_spec 3 4 4 (by norm_num) (by norm_num)

/-- C5: when either token sequence is empty, or (for ROUGE-N with window
size `n ≥ 1`) shorter than `n` so that it yields zero n-gram windows, the
n-gram scorer and the LCS scorer return the all-zero triple. -/
theorem rouge_zero_length_invariant :
    (∀ (pred target : List Token) (n : ℕ), 1 ≤ n →
      (pred = [] ∨ target = [] ∨ pred.length < n ∨ target.length < n) →
      _rouge_n_score pred target n = { precision := 0, «recall» := 0, fmeasure := 0 }) ∧
    (∀ pred target : List Token, (pred = [] ∨ target = []) →
      _rouge_l_score pred target = { precision := 0, «recall» := 0, fmeasure := 0 }) := by
  constructor
  · intro pred target n hn h
    have key : ∀ toks : List Token, toks.length < n → _create_ngrams toks n = [] := by
      intro toks hlt
      unfold _create_ngrams
      rw [if_neg (by omega)]
    have hlen : (_create_ngrams pred n).length = 0 ∨ (_create_ngrams target n).length = 0 := by
      rcases h with h | h | h | h
      · left
        rw [key pred (by rw [h]; simpa using hn)]
        rfl
      · right
        rw [key target (by rw [h]; simpa using hn)]
        rfl
      · left
        rw [key pred h]
        rfl
      · right
        rw [key target h]
        rfl
    simp only [_rouge_n_score]
    rw [if_pos hlen]
  · intro pred target h
    have hlen : pred.length = 0 ∨ target.length = 0 := by
      rcases h with rfl | rfl
      · left; rfl
      · right; rfl
    simp only [_rouge_l_score]
    rw [if_pos hlen]

/-- Witness for C5: an empty reference for ROUGE-1, an empty prediction for
ROUGE-L. -/
theorem rouge_zero_length_invariant_witness :
    _rouge_n_score ["a"] [] 1 = { precision := 0, «recall» := 0, fmeasure := 0 } ∧
    _rouge_l_score [] ["a"] = { precision := 0, «recall» := 0, fmeasure := 0 } :=
  ⟨rouge_zero_length_invariant.1 ["a"] [] 1 (le_refl 1) (Or.inr (Or.inl rfl)),
   rouge_zero_length_invariant.2 [] ["a"] (Or.inl rfl)⟩

/-- C10: shape normalization at the `rouge_score` entry point: a string
prediction with a list-of-strings target takes the whole list as its
reference group; a list-of-strings prediction with a list-of-strings target
pairs each prediction with a singleton reference group at the same
position. -/
theorem rouge_shape_normalization :
    (∀ (s : String) (l : List String),
      normalizeShapes (PredsInput.str s) (TargetInput.strList l) = ([s], [l])) ∧
    (∀ (preds l : List String),
      normalizeShapes (PredsInput.list preds) (TargetInput.strList l) =
        (preds, l.map (fun tgt => [tgt]))) :=
  ⟨fun _ _ => rfl, fun _ _ => rfl⟩

/-- C7 (failing input): with nltk unavailable and only `rouge1` requested
(no Lsum), `rouge_score` still raises the ROUGE-Lsum nltk error, because
the prediction-side sentence-joined tokenization runs unconditionally. -/
theorem rouge_lsum_missing_nltk_code_bug :
    rouge_score false singleSentenceSplit id (PredsInput.str "a") (TargetInput.str "a")
      Accumulate.best false (RougeKeysInput.tuple ["rouge1"]) =
      Except.error "ROUGE-Lsum calculation requires that nltk is installed. Use pip install nltk." :=
  rfl

theorem validateKeys_error :
    ∀ keysList : List String,
      (∃ key ∈ keysList, ALLOWED_ROUGE_KEYS.lookup key = none) →
      ∃ key, ALLOWED_ROUGE_KEYS.lookup key = none ∧
        validateKeys keysList = Except.error (unknownKeyMsg key)
  | [], h => by simp at h
  | k :: rest, h => by
    cases hk : ALLOWED_ROUGE_KEYS.lookup k with
    | none =>
      refine ⟨k, hk, ?_⟩
      simp only [validateKeys, hk]
    | some v =>
      have hrest : ∃ key ∈ rest, ALLOWED_ROUGE_KEYS.lookup key = none := by
        obtain ⟨key, hmem, hnone⟩ := h
        rcases List.mem_cons.mp hmem with rfl | hmem'
        · rw [hk] at hnone
          exact absurd hnone (by simp)
        · exact ⟨key, hmem', hnone⟩
      obtain ⟨key, hnone, herr⟩ := validateKeys_error rest hrest
      refine ⟨key, hnone, ?_⟩
      simp only [validateKeys, hk, herr]

/-- C6: whenever `rouge_keys` contains a key outside the allowed set, the
entry point raises the `ValueError` naming the allowed set (and hence, its
result being an error, returns no partial output; key validation precedes
all scoring in `rouge_score`). -/
theorem rouge_unknown_key_rejection (nltkAvailable : Bool)
    (sentTokenize : String → List String) (porterStem : Token → Token)
    (preds : PredsInput) (target : TargetInput) (accumulate : Accumulate)
    (keysList : List String)
    (hbad : ∃ key ∈ keysList, ALLOWED_ROUGE_KEYS.lookup key = none) :
    ∃ key, ALLOWED_ROUGE_KEYS.lookup key = none ∧
      rouge_score nltkAvailable sentTokenize porterStem preds target accumulate false
        (RougeKeysInput.tuple keysList) = Except.error (unknownKeyMsg key) := by
  obtain ⟨key, hnone, herr⟩ := validateKeys_error keysList hbad
  refine ⟨key, hnone, ?_⟩
  simp only [rouge_score, Bool.false_and, Bool.false_eq_true, if_false, herr]

/-- Witness for C6: requesting the unknown key `rouge10`. -/
theorem rouge_unknown_key_rejection_witness :
    ∃ key, ALLOWED_ROUGE_KEYS.lookup key = none ∧
      rouge_score true singleSentenceSplit id (PredsInput.str "x") (TargetInput.str "x")
        Accumulate.best false (RougeKeysInput.tuple ["rouge10"]) =
        Except.error (unknownKeyMsg key) :=
  rouge_unknown_key_rejection true singleSentenceSplit id (PredsInput.str "x")
    (TargetInput.str "x") Accumulate.best ["rouge10"] ⟨"rouge10", by simp, by rfl⟩

theorem compute_buildOutput_empty :
    ∀ vals : List RougeKeyVal,
      _rouge_score_compute (buildOutput vals (fun _ => [])) =
        vals.flatMap (fun k =>
          [("rouge" ++ keyName k ++ "_fmeasure", (none : Option ℚ)),
           ("rouge" ++ keyName k ++ "_precision", (none : Option ℚ)),
           ("rouge" ++ keyName k ++ "_recall", (none : Option ℚ))])
  | [] => rfl
  | v :: vals => by
    have ih := compute_buildOutput_empty vals
    simp only [buildOutput, List.flatMap_cons, _rouge_score_compute, List.map_append] at ih ⊢
    rw [ih]
    rfl

/-- C9 (counterexample): on an empty batch with the default keys, the entry
point does not return an empty mapping: it returns one entry per
`(key, field)` pair, each holding NaN (the mean of an empty tensor,
modelled `none`). -/
theorem rouge_empty_batch_counterexample :
    rouge_score true singleSentenceSplit id (PredsInput.list []) (TargetInput.strList [])
        Accumulate.best false (RougeKeysInput.tuple ["rouge1", "rouge2", "rougeL", "rougeLsum"]) =
      Except.ok [("rouge1_fmeasure", none), ("rouge1_precision", none), ("rouge1_recall", none),
        ("rouge2_fmeasure", none), ("rouge2_precision", none), ("rouge2_recall", none),
        ("rougeL_fmeasure", none), ("rougeL_precision", none), ("rougeL_recall", none),
        ("rougeLsum_fmeasure", none), ("rougeLsum_precision", none),
        ("rougeLsum_recall", none)] ∧
    rouge_score true singleSentenceSplit id (PredsInput.list []) (TargetInput.strList [])
        Accumulate.best false (RougeKeysInput.tuple ["rouge1", "rouge2", "rougeL", "rougeLsum"]) ≠
      Except.ok [] := by
  have heq : rouge_score true singleSentenceSplit id (PredsInput.list [])
      (TargetInput.strList []) Accumulate.best false
      (RougeKeysInput.tuple ["rouge1", "rouge2", "rougeL", "rougeLsum"]) =
      Except.ok [("rouge1_fmeasure", none), ("rouge1_precision", none), ("rouge1_recall", none),
        ("rouge2_fmeasure", none), ("rouge2_precision", none), ("rouge2_recall", none),
        ("rougeL_fmeasure", none), ("rougeL_precision", none), ("rougeL_recall", none),
        ("rougeLsum_fmeasure", none), ("rougeLsum_precision", none),
        ("rougeLsum_recall", none)] := rfl
  refine ⟨heq, ?_⟩
  rw [heq]
  simp

/-- C9 (amended): for every key list that validates, `rouge_score` on an
empty batch does not raise, and returns a mapping with one entry per
requested `(key, field)` pair whose value is NaN (`none`, the mean of an
empty tensor), rather than an empty mapping. -/
theorem rouge_empty_batch_nan_output (nltkAvailable : Bool)
    (sentTokenize : String → List String) (porterStem : Token → Token)
    (accumulate : Accumulate) (keysList : List String) (vals : List RougeKeyVal)
    (hval : validateKeys keysList = Except.ok vals) :
    rouge_score nltkAvailable sentTokenize porterStem (PredsInput.list [])
        (TargetInput.strList []) accumulate false (RougeKeysInput.tuple keysList) =
      Except.ok (vals.flatMap (fun k =>
        [("rouge" ++ keyName k ++ "_fmeasure", (none : Option ℚ)),
         ("rouge" ++ keyName k ++ "_precision", (none : Option ℚ)),
         ("rouge" ++ keyName k ++ "_recall", (none : Option ℚ))])) := by
  simp only [rouge_score, Bool.false_and, Bool.false_eq_true, if_false, hval,
    normalizeShapes, List.map_nil, _rouge_score_update, List.zip_nil_left, updateLoop]
  rw [compute_buildOutput_empty]

/-- Witness for C9's amended claim with the keys `rouge1, rougeL`. -/
theorem rouge_empty_batch_nan_output_witness :
    rouge_score true singleSentenceSplit id (PredsInput.list []) (TargetInput.strList [])
        Accumulate.avg false (RougeKeysInput.tuple ["rouge1", "rougeL"]) =
      Except.ok ([RougeKeyVal.ngram 1, RougeKeyVal.L].flatMap (fun k =>
        [("rouge" ++ keyName k ++ "_fmeasure", (none : Option ℚ)),
         ("rouge" ++ keyName k ++ "_precision", (none : Option ℚ)),
         ("rouge" ++ keyName k ++ "_recall", (none : Option ℚ))])) :=
  rouge_empty_batch_nan_output true singleSentenceSplit id Accumulate.avg
    ["rouge1", "rougeL"] [RougeKeyVal.ngram 1, RougeKeyVal.L] rfl

theorem zip_eq_zip_take {α β : Type} :
    ∀ (l : List α) (l' : List β),
      l.zip l' = (l.take (min l.length l'.length)).zip (l'.take (min l.length l'.length))
  | [], l' => by simp
  | a :: l, [] => by simp
  | a :: l, b :: l' => by
    have ih := zip_eq_zip_take l l'
    simp only [List.zip_cons_cons, List.length_cons, Nat.succ_min_succ, List.take_succ_cons]
    rw [← ih]

/-- C8 (amended): no shape check is performed on the prediction/reference
counts: `zip` silently truncates the two sequences to the shorter one, so
the update is the update of the truncated, positionally-paired prefix, and
any excess predictions or reference groups are ignored without an error. -/
theorem rouge_shape_mismatch_truncation (nltkAvailable : Bool)
    (sentTokenize : String → List String) (stemmer : Option (Token → Token))
    (rouge_keys_values : List RougeKeyVal) (accumulate : Accumulate)
    (preds : List String) (target : List (List String)) :
    _rouge_score_update nltkAvailable sentTokenize stemmer preds target
        rouge_keys_values accumulate =
      _rouge_score_update nltkAvailable sentTokenize stemmer
        (preds.take (min preds.length target.length))
        (target.take (min preds.length target.length)) rouge_keys_values accumulate := by
  unfold _rouge_score_update
  rw [← zip_eq_zip_take]

/-- C8 (counterexample): two predictions with a single reference group do
not raise: the second prediction is silently dropped and a full (partial)
result for the first pair alone is returned. -/
theorem rouge_shape_mismatch_counterexample :
    rouge_score true singleSentenceSplit id (PredsInput.list ["a", "b"])
        (TargetInput.nested [["a"]]) Accumulate.best false
        (RougeKeysInput.tuple ["rouge1"]) =
      Except.ok [("rouge1_fmeasure", some 1), ("rouge1_precision", some 1),
        ("rouge1_recall", some 1)] := by
  have hs : _rouge_n_score ["a"] ["a"] 1 = { precision := 1, «recall» := 1, fmeasure := 1 } := by
    calc _rouge_n_score ["a"] ["a"] 1 = _compute_metrics 1 1 1 := by
          simp only [_rouge_n_score]
          rw [if_neg (by decide)]
          exact compute_metrics_congr (by decide) (by decide) (by decide)
      _ = { precision := 1, «recall» := 1, fmeasure := 1 } := by
          norm_num [_compute_metrics]
  calc rouge_score true singleSentenceSplit id (PredsInput.list ["a", "b"])
        (TargetInput.nested [["a"]]) Accumulate.best false
        (RougeKeysInput.tuple ["rouge1"]) =
      Except.ok [("rouge1_fmeasure", meanTensor [(_rouge_n_score ["a"] ["a"] 1).fmeasure]),
        ("rouge1_precision", meanTensor [(_rouge_n_score ["a"] ["a"] 1).precision]),
        ("rouge1_recall", meanTensor [(_rouge_n_score ["a"] ["a"] 1).«recall»])] := rfl
    _ = Except.ok [("rouge1_fmeasure", some 1), ("rouge1_precision", some 1),
        ("rouge1_recall", some 1)] := by
      rw [hs]
      norm_num [meanTensor]

theorem argmaxFirst_lt_length : ∀ l : List ℚ, l ≠ [] → argmaxFirst l < l.length
  | [], h => absurd rfl h
  | [_], _ => by simp [argmaxFirst]
  | x :: y :: t, _ => by
    have ih := argmaxFirst_lt_length (y :: t) (by simp)
    by_cases h : x < (y :: t).getD (argmaxFirst (y :: t)) 0
    · simp only [argmaxFirst, if_pos h, List.length_cons]
      exact Nat.succ_lt_succ ih
    · simp only [argmaxFirst, if_neg h, List.length_cons]
      exact Nat.succ_pos _

theorem argmaxFirst_le : ∀ (l : List ℚ) (j : ℕ), j < l.length →
    l.getD j 0 ≤ l.getD (argmaxFirst l) 0
  | [], j, hj => by simp at hj
  | [_], 0, _ => le_refl _
  | [_], j + 1, hj => by simp at hj
  | x :: y :: t, j, hj => by
    by_cases h : x < (y :: t).getD (argmaxFirst (y :: t)) 0
    · simp only [argmaxFirst, if_pos h, List.getD_cons_succ]
      cases j with
      | zero => simpa [List.getD_cons_zero] using le_of_lt h
      | succ j =>
        simp only [List.getD_cons_succ]
        exact argmaxFirst_le (y :: t) j (by simpa using hj)
    · simp only [argmaxFirst, if_neg h, List.getD_cons_zero]
      cases j with
      | zero => simp [List.getD_cons_zero]
      | succ j =>
        simp only [List.getD_cons_succ]
        exact le_trans (argmaxFirst_le (y :: t) j (by simpa using hj)) (not_lt.mp h)

theorem argmaxFirst_first : ∀ (l : List ℚ) (j : ℕ), j < argmaxFirst l →
    l.getD j 0 < l.getD (argmaxFirst l) 0
  | [], j, hj => by simp [argmaxFirst] at hj
  | [_], j, hj => by simp [argmaxFirst] at hj
  | x :: y :: t, j, hj => by
    by_cases h : x < (y :: t).getD (argmaxFirst (y :: t)) 0
    · simp only [argmaxFirst, if_pos h] at hj ⊢
      cases j with
      | zero => simpa [List.getD_cons_zero, List.getD_cons_succ] using h
      | succ j =>
        simp only [List.getD_cons_succ]
        exact argmaxFirst_first (y :: t) j (Nat.lt_of_succ_lt_succ hj)
    · simp only [argmaxFirst, if_neg h] at hj
      exact absurd hj (Nat.not_lt_zero j)

theorem getD_map_lt {α β : Type} (f : α → β) (dα : α) (dβ : β) :
    ∀ (l : List α) (j : ℕ), j < l.length → (l.map f).getD j dβ = f (l.getD j dα)
  | [], j, hj => by simp at hj
  | _ :: _, 0, _ => rfl
  | _ :: l, j + 1, hj => by
    simp only [List.map_cons, List.getD_cons_succ]
    exact getD_map_lt f dα dβ l j (by simpa using hj)

theorem refScores_nltk_ok (sentTokenize : String → List String)
    (stemmer : Option (Token → Token)) (rouge_keys_values : List RougeKeyVal)
    (pred pred_Lsum : List Token) :
    ∀ target_raw : List String,
      refScores true sentTokenize stemmer rouge_keys_values pred pred_Lsum target_raw =
        Except.ok (target_raw.map
          (refScoreFun sentTokenize stemmer rouge_keys_values pred pred_Lsum))
  | [] => rfl
  | t :: ts => by
    have ih := refScores_nltk_ok sentTokenize stemmer rouge_keys_values pred pred_Lsum ts
    by_cases h : RougeKeyVal.Lsum ∈ rouge_keys_values
    · simp only [refScores, _add_newline_to_end_of_each_sentence, if_pos h, ih,
        Except.map, List.map_cons, refScoreFun, if_true]
    · simp only [refScores, _add_newline_to_end_of_each_sentence, if_neg h, ih,
        Except.map, List.map_cons, refScoreFun, if_true]

theorem exampleResult_best_eq (sentTokenize : String → List String)
    (stemmer : Option (Token → Token)) (k0 : RougeKeyVal) (ks : List RougeKeyVal)
    (pred_raw : String) (t : String) (ts : List String) :
    exampleResult true sentTokenize stemmer (k0 :: ks) Accumulate.best pred_raw (t :: ts) =
      Except.ok (fun rouge_key =>
        [(refList sentTokenize stemmer (k0 :: ks) pred_raw (t :: ts)).getD
          (argmaxFirst ((refList sentTokenize stemmer (k0 :: ks) pred_raw (t :: ts)).map
            (fun v => (v k0).fmeasure))) zeroScoreFun rouge_key]) := by
  simp only [exampleResult, _add_newline_to_end_of_each_sentence, if_true,
    refScores_nltk_ok, refList, List.map_cons]

theorem exampleResult_avg_eq (sentTokenize : String → List String)
    (stemmer : Option (Token → Token)) (rouge_keys_values : List RougeKeyVal)
    (pred_raw : String) (t : String) (ts : List String) :
    exampleResult true sentTokenize stemmer rouge_keys_values Accumulate.avg pred_raw (t :: ts) =
      Except.ok (fun rouge_key =>
        [meanScore ((refList sentTokenize stemmer rouge_keys_values pred_raw (t :: ts)).map
          (fun v => v rouge_key))]) := by
  simp only [exampleResult, _add_newline_to_end_of_each_sentence, if_true,
    refScores_nltk_ok, refList, List.map_cons]

theorem argmax_map_spec (L : List (RougeKeyVal → Score)) (k0 : RougeKeyVal) (hL : L ≠ []) :
    argmaxFirst (L.map (fun v => (v k0).fmeasure)) < L.length ∧
    (∀ j, j < L.length →
      (L.getD j zeroScoreFun k0).fmeasure ≤
      (L.getD (argmaxFirst (L.map (fun v => (v k0).fmeasure))) zeroScoreFun k0).fmeasure) ∧
    (∀ j, j < argmaxFirst (L.map (fun v => (v k0).fmeasure)) →
      (L.getD j zeroScoreFun k0).fmeasure <
      (L.getD (argmaxFirst (L.map (fun v => (v k0).fmeasure))) zeroScoreFun k0).fmeasure) := by
  have hfsne : L.map (fun v => (v k0).fmeasure) ≠ [] := by
    intro h
    exact hL (List.map_eq_nil_iff.mp h)
  have hlen : (L.map (fun v => (v k0).fmeasure)).length = L.length := List.length_map L _
  have hi : argmaxFirst (L.map (fun v => (v k0).fmeasure)) < L.length :=
    hlen ▸ argmaxFirst_lt_length _ hfsne
  refine ⟨hi, ?_, ?_⟩
  · intro j hj
    have h1 := argmaxFirst_le (L.map (fun v => (v k0).fmeasure)) j (by rw [hlen]; exact hj)
    rw [getD_map_lt _ zeroScoreFun 0 L j hj, getD_map_lt _ zeroScoreFun 0 L _ hi] at h1
    exact h1
  · intro j hj
    have hjL : j < L.length := lt_trans hj hi
    have h1 := argmaxFirst_first (L.map (fun v => (v k0).fmeasure)) j hj
    rw [getD_map_lt _ zeroScoreFun 0 L j hjL, getD_map_lt _ zeroScoreFun 0 L _ hi] at h1
    exact h1

/-- C1: in `best` mode, for an example with at least one reference and a
non-empty requested key list, the per-example result at every requested key
is the per-key triple of one single reference index `i`: the one whose
fmeasure for the first requested key `k0` is maximal, ties broken by the
lowest index (every earlier reference is strictly smaller on `k0`'s
fmeasure).  No key's triple is chosen independently of that reference. -/
theorem rouge_best_mode_selection (sentTokenize : String → List String)
    (stemmer : Option (Token → Token)) (k0 : RougeKeyVal) (ks : List RougeKeyVal)
    (pred_raw : String) (target_raw : List String) (hne : target_raw ≠ []) :
    ∃ (r : RougeKeyVal → List Score) (i : ℕ),
      exampleResult true sentTokenize stemmer (k0 :: ks) Accumulate.best pred_raw target_raw =
        Except.ok r ∧
      i < (refList sentTokenize stemmer (k0 :: ks) pred_raw target_raw).length ∧
      (∀ j, j < (refList sentTokenize stemmer (k0 :: ks) pred_raw target_raw).length →
        ((refList sentTokenize stemmer (k0 :: ks) pred_raw target_raw).getD j
          zeroScoreFun k0).fmeasure ≤
        ((refList sentTokenize stemmer (k0 :: ks) pred_raw target_raw).getD i
          zeroScoreFun k0).fmeasure) ∧
      (∀ j, j < i →
        ((refList sentTokenize stemmer (k0 :: ks) pred_raw target_raw).getD j
          zeroScoreFun k0).fmeasure <
        ((refList sentTokenize stemmer (k0 :: ks) pred_raw target_raw).getD i
          zeroScoreFun k0).fmeasure) ∧
      (∀ rouge_key, r rouge_key =
        [(refList sentTokenize stemmer (k0 :: ks) pred_raw target_raw).getD i
          zeroScoreFun rouge_key]) := by
  obtain ⟨t, ts, rfl⟩ := List.exists_cons_of_ne_nil hne
  obtain ⟨hi, hle, hlt⟩ := argmax_map_spec
    (refList sentTokenize stemmer (k0 :: ks) pred_raw (t :: ts)) k0 (by simp [refList])
  exact ⟨_, _, exampleResult_best_eq sentTokenize stemmer k0 ks pred_raw t ts,
    hi, hle, hlt, fun rouge_key => rfl⟩

/-- Witness for C1: two references for `rouge1`, where the scoring is run on
a concrete example. -/
theorem rouge_best_mode_selection_witness :
    ∃ (r : RougeKeyVal → List Score) (i : ℕ),
      exampleResult true singleSentenceSplit none [RougeKeyVal.ngram 1] Accumulate.best
        "a b" ["a", "x"] = Except.ok r ∧
      i < (refList singleSentenceSplit none [RougeKeyVal.ngram 1] "a b" ["a", "x"]).length ∧
      (∀ j, j < (refList singleSentenceSplit none [RougeKeyVal.ngram 1] "a b" ["a", "x"]).length →
        ((refList singleSentenceSplit none [RougeKeyVal.ngram 1] "a b" ["a", "x"]).getD j
          zeroScoreFun (RougeKeyVal.ngram 1)).fmeasure ≤
        ((refList singleSentenceSplit none [RougeKeyVal.ngram 1] "a b" ["a", "x"]).getD i
          zeroScoreFun (RougeKeyVal.ngram 1)).fmeasure) ∧
      (∀ j, j < i →
        ((refList singleSentenceSplit none [RougeKeyVal.ngram 1] "a b" ["a", "x"]).getD j
          zeroScoreFun (RougeKeyVal.ngram 1)).fmeasure <
        ((refList singleSentenceSplit none [RougeKeyVal.ngram 1] "a b" ["a", "x"]).getD i
          zeroScoreFun (RougeKeyVal.ngram 1)).fmeasure) ∧
      (∀ rouge_key, r rouge_key =
        [(refList singleSentenceSplit none [RougeKeyVal.ngram 1] "a b" ["a", "x"]).getD i
          zeroScoreFun rouge_key]) :=
  rouge_best_mode_selection singleSentenceSplit none (RougeKeyVal.ngram 1) [] "a b"
    ["a", "x"] (by simp)

/-- C3: in `avg` mode, the per-example triple at every requested key has each
field equal to the unweighted arithmetic mean of that field over the
per-reference triples for that key (each field averaged independently). -/
theorem rouge_avg_mode_linearity (sentTokenize : String → List String)
    (stemmer : Option (Token → Token)) (rouge_keys_values : List RougeKeyVal)
    (pred_raw : String) (target_raw : List String) (hne : target_raw ≠ []) :
    ∃ r : RougeKeyVal → List Score,
      exampleResult true sentTokenize stemmer rouge_keys_values Accumulate.avg pred_raw
        target_raw = Except.ok r ∧
      ∀ rouge_key, r rouge_key =
        [Score.mk
          (((refList sentTokenize stemmer rouge_keys_values pred_raw target_raw).map
            (fun v => (v rouge_key).precision)).sum / (target_raw.length : ℚ))
          (((refList sentTokenize stemmer rouge_keys_values pred_raw target_raw).map
            (fun v => (v rouge_key).«recall»)).sum / (target_raw.length : ℚ))
          (((refList sentTokenize stemmer rouge_keys_values pred_raw target_raw).map
            (fun v => (v rouge_key).fmeasure)).sum / (target_raw.length : ℚ))] := by
  obtain ⟨t, ts, rfl⟩ := List.exists_cons_of_ne_nil hne
  refine ⟨_, exampleResult_avg_eq sentTokenize stemmer rouge_keys_values pred_raw t ts, ?_⟩
  intro rouge_key
  simp only [meanScore, refList, List.map_map, List.length_map, Function.comp_def]

/-- Witness for C3: three references for `rouge1` on a concrete example. -/
theorem rouge_avg_mode_linearity_witness :
    ∃ r : RougeKeyVal → List Score,
      exampleResult true singleSentenceSplit none [RougeKeyVal.ngram 1] Accumulate.avg
        "a b" ["a", "x", "a b"] = Except.ok r ∧
      ∀ rouge_key, r rouge_key =
        [Score.mk
          (((refList singleSentenceSplit none [RougeKeyVal.ngram 1] "a b" ["a", "x", "a b"]).map
            (fun v => (v rouge_key).precision)).sum / (((["a", "x", "a b"] : List String).length : ℚ)))
          (((refList singleSentenceSplit none [RougeKeyVal.ngram 1] "a b" ["a", "x", "a b"]).map
            (fun v => (v rouge_key).«recall»)).sum / (((["a", "x", "a b"] : List String).length : ℚ)))
          (((refList singleSentenceSplit none [RougeKeyVal.ngram 1] "a b" ["a", "x", "a b"]).map
            (fun v => (v rouge_key).fmeasure)).sum / (((["a", "x", "a b"] : List String).length : ℚ)))] :=
  rouge_avg_mode_linearity singleSentenceSplit none [RougeKeyVal.ngram 1] "a b"
    ["a", "x", "a b"] (by simp)

/-- C2: the concrete scenario `preds="My name is John"`,
`target="Is your name John"`, default keys, `accumulate="best"`: all rouge1
fields are `3/4`, all rouge2 fields are `0`, and all rougeL and rougeLsum
fields are `1/2` (single-sentence input, so Lsum collapses to L under the
spec-modelled sentence splitter). -/
theorem rouge_concrete_scenario :
    rouge_score true singleSentenceSplit id (PredsInput.str "My name is John")
        (TargetInput.str "Is your name John") Accumulate.best false
        (RougeKeysInput.tuple ["rouge1", "rouge2", "rougeL", "rougeLsum"]) =
      Except.ok [("rouge1_fmeasure", some (3/4)), ("rouge1_precision", some (3/4)),
        ("rouge1_recall", some (3/4)),
        ("rouge2_fmeasure", some 0), ("rouge2_precision", some 0),
        ("rouge2_recall", some 0),
        ("rougeL_fmeasure", some (1/2)), ("rougeL_precision", some (1/2)),
        ("rougeL_recall", some (1/2)),
        ("rougeLsum_fmeasure", some (1/2)), ("rougeLsum_precision", some (1/2)),
        ("rougeLsum_recall", some (1/2))] := by
  have h1 : _rouge_n_score ["my", "name", "is", "john"] ["is", "your", "name", "john"] 1 =
      Score.mk (3/4) (3/4) (3/4) := by
    calc _rouge_n_score ["my", "name", "is", "john"] ["is", "your", "name", "john"] 1 =
        _compute_metrics 3 4 4 := by
          simp only [_rouge_n_score]
          rw [if_neg (by decide)]
          exact compute_metrics_congr (by decide) (by decide) (by decide)
      _ = Score.mk (3/4) (3/4) (3/4) := by norm_num [_compute_metrics]
  have h2 : _rouge_n_score ["my", "name", "is", "john"] ["is", "your", "name", "john"] 2 =
      Score.mk 0 0 0 := by
    calc _rouge_n_score ["my", "name", "is", "john"] ["is", "your", "name", "john"] 2 =
        _compute_metrics 0 3 3 := by
          simp only [_rouge_n_score]
          rw [if_neg (by decide)]
          exact compute_metrics_congr (by decide) (by decide) (by decide)
      _ = Score.mk 0 0 0 := by norm_num [_compute_metrics]
  have hL : _rouge_l_score ["my", "name", "is", "john"] ["is", "your", "name", "john"] =
      Score.mk (1/2) (1/2) (1/2) := by
    calc _rouge_l_score ["my", "name", "is", "john"] ["is", "your", "name", "john"] =
        _compute_metrics 2 4 4 := by
          simp only [_rouge_l_score]
          rw [if_neg (by decide)]
          exact compute_metrics_congr (by decide) (by decide) (by decide)
      _ = Score.mk (1/2) (1/2) (1/2) := by norm_num [_compute_metrics]
  calc rouge_score true singleSentenceSplit id (PredsInput.str "My name is John")
        (TargetInput.str "Is your name John") Accumulate.best false
        (RougeKeysInput.tuple ["rouge1", "rouge2", "rougeL", "rougeLsum"]) =
      Except.ok [
        ("rouge1_fmeasure", meanTensor [(_rouge_n_score ["my", "name", "is", "john"]
          ["is", "your", "name", "john"] 1).fmeasure]),
        ("rouge1_precision", meanTensor [(_rouge_n_score ["my", "name", "is", "john"]
          ["is", "your", "name", "john"] 1).precision]),
        ("rouge1_recall", meanTensor [(_rouge_n_score ["my", "name", "is", "john"]
          ["is", "your", "name", "john"] 1).«recall»]),
        ("rouge2_fmeasure", meanTensor [(_rouge_n_score ["my", "name", "is", "john"]
          ["is", "your", "name", "john"] 2).fmeasure]),
        ("rouge2_precision", meanTensor [(_rouge_n_score ["my", "name", "is", "john"]
          ["is", "your", "name", "john"] 2).precision]),
        ("rouge2_recall", meanTensor [(_rouge_n_score ["my", "name", "is", "john"]
          ["is", "your", "name", "john"] 2).«recall»]),
        ("rougeL_fmeasure", meanTensor [(_rouge_l_score ["my", "name", "is", "john"]
          ["is", "your", "name", "john"]).fmeasure]),
        ("rougeL_precision", meanTensor [(_rouge_l_score ["my", "name", "is", "john"]
          ["is", "your", "name", "john"]).precision]),
        ("rougeL_recall", meanTensor [(_rouge_l_score ["my", "name", "is", "john"]
          ["is", "your", "name", "john"]).«recall»]),
        ("rougeLsum_fmeasure", meanTensor [(_rouge_l_score ["my", "name", "is", "john"]
          ["is", "your", "name", "john"]).fmeasure]),
        ("rougeLsum_precision", meanTensor [(_rouge_l_score ["my", "name", "is", "john"]
          ["is", "your", "name", "john"]).precision]),
        ("rougeLsum_recall", meanTensor [(_rouge_l_score ["my", "name", "is", "john"]
          ["is", "your", "name", "john"]).«recall»])] := rfl
    _ = Except.ok [("rouge1_fmeasure", some (3/4)), ("rouge1_precision", some (3/4)),
        ("rouge1_recall", some (3/4)),
        ("rouge2_fmeasure", some 0), ("rouge2_precision", some 0),
        ("rouge2_recall", some 0),
        ("rougeL_fmeasure", some (1/2)), ("rougeL_precision", some (1/2)),
        ("rougeL_recall", some (1/2)),
        ("rougeLsum_fmeasure", some (1/2)), ("rougeLsum_precision", some (1/2)),
        ("rougeLsum_recall", some (1/2))] := by
      rw [h1, h2, hL]
      norm_num [meanTensor]
